import Mathlib

/-!
# Shallow embedding of `ilostat.py`

This file embeds the data model and the operations of the `ilostat` Python
module (file `ilostat/ilostat.py`) in Lean 4 and proves properties of the
embedding.

Modelling conventions:

* A pandas `DataFrame` is a `Table`: a list of column names and a list of
  rows; each cell is an `Option String` (`none` models `NaN`).  All dataset
  and TOC columns are read with `dtype = str`, so string cells suffice.
* Python exceptions are values of `PyError`; a computation that can raise
  returns `Except PyError α`.  `OSError`/`IOError` (including `HTTPError`,
  `FileNotFoundError` and `gzip.BadGzipFile`) is `PyError.osError`;
  `pandas.errors.ParserError` and boolean-mask errors are
  `PyError.valueError`.
* `re.search` of a `'|'`-joined pattern built from metacharacter-free
  literal parts holds exactly when some part is a substring of the cell;
  filter strings are modelled as such literals.
* The network and the filesystem are an explicit environment: remote reads
  are functions from URLs to `Except PyError Table`, the filesystem is the
  list of existing file paths.  Console output is collected as a list of
  printed strings; a raised exception discards the collected output.
-/

/-- A cell of a pandas data frame read with `dtype = str`: a string or `NaN`. -/
abbrev Cell := Option String

/-- A pandas `DataFrame`: named columns and rows of cells (positional). -/
structure Table where
  cols : List String
  rows : List (List Cell)
deriving DecidableEq, Repr

/-- `pandas.DataFrame()`: the empty data frame. -/
def Table.empty : Table := ⟨[], []⟩

/-- The Python exception classes the embedded code can raise. -/
inductive PyError
  | osError
  | valueError
  | typeError
  | nameError
  | keyError
  | indexError
  | attributeError
deriving DecidableEq, Repr

/-- `pat in s` on strings: `pat` occurs as a contiguous substring of `s`. -/
def strContainsSub (pat s : String) : Bool :=
  decide (pat.data <:+: s.data)

/-- Scan for first-occurrence deduplication, carrying the set of values
already seen. -/
def dedupFirstAux {α} [DecidableEq α] (seen : List α) : List α → List α
  | [] => []
  | a :: t => if a ∈ seen then dedupFirstAux seen t else a :: dedupFirstAux (a :: seen) t

/-- First-occurrence deduplication: pandas `Series.unique` /
`drop_duplicates(keep = first)`, which keep the first occurrence of each
distinct value in order of appearance. -/
def dedupFirst {α} [DecidableEq α] (l : List α) : List α :=
  dedupFirstAux [] l

/-- A Python value that is either a string or a list of strings, as passed
for a filter slot or a search argument (the source is dynamically typed and
`get_ilostat_dat` passes a bare string where a list is expected). -/
inductive PyStrOrList
  | str (s : String)
  | lst (l : List String)
deriving DecidableEq, Repr

/-- Python truthiness of a filter slot / search argument:
`''` and `[]` are falsy, everything else truthy. -/
def PyStrOrList.truthy : PyStrOrList → Bool
  | .str s => !s.isEmpty
  | .lst l => !l.isEmpty

/-- The pieces iterated by `'|'.join(test_filter)`: the characters of a
string, or the elements of a list.  (Joining a Python *string* iterates its
characters — this is what happens when a bare string is passed as a filter
slot.) -/
def PyStrOrList.joinParts : PyStrOrList → List String
  | .str s => s.data.map (fun c => String.mk [c])
  | .lst l => l

/-- `Series.str.contains(pattern)` on one cell, where `pattern` is the
`'|'`-join of metacharacter-free literal `parts`: `NaN` propagates to `NaN`,
and a string cell matches iff some part occurs in it as a substring. -/
def cellContains (parts : List String) : Cell → Option Bool
  | none => none
  | some s => some (parts.any (fun p => strContainsSub p s))

/-- `dat = dat[dat.iloc[:, idx].str.contains(pattern)]`: build the boolean
mask for column `idx`; a `NaN` entry in the mask makes the boolean indexing
raise `ValueError`, otherwise keep exactly the rows whose mask entry is
true. -/
def maskFilter (t : Table) (idx : Nat) (parts : List String) : Except PyError Table :=
  if t.rows.any (fun r => (cellContains parts (r.getD idx none)).isNone) then
    .error .valueError
  else
    .ok ⟨t.cols, t.rows.filter (fun r => (cellContains parts (r.getD idx none)).getD false)⟩

/-- The body of the `for index in range(test_cols)` filter loop, started at
column `idx` over the remaining slots.  On an exception the error carries
the table state reached so far (the Python variable `dat` keeps the last
successfully filtered state). -/
def applyFrom (t : Table) (idx : Nat) : List PyStrOrList → Except (Table × PyError) Table
  | [] => .ok t
  | slot :: rest =>
    if slot.truthy then
      match maskFilter t idx slot.joinParts with
      | .ok t' => applyFrom t' (idx + 1) rest
      | .error e => .error (t, e)
    else
      applyFrom t (idx + 1) rest

/-- The filter loop: `test_cols = min(len(dat.columns), len(filters))`
slots are iterated, aligned positionally from column 0. -/
def applyFiltersLoop (t : Table) (fs : List PyStrOrList) : Except (Table × PyError) Table :=
  applyFrom t 0 (fs.take (min t.cols.length fs.length))

/-- The `try: ... except OSError: pass` around the filter loop: an `OSError`
is swallowed and the table reached so far is kept; any other exception
propagates. -/
def applyFiltersCaught (t : Table) (fs : List PyStrOrList) : Except PyError Table :=
  match applyFiltersLoop t fs with
  | .ok t' => .ok t'
  | .error (st, e) => if e = .osError then .ok st else .error e

/-- The whole `if filters:` block shared by `get_ilostat_dat` and
`get_ilostat_toc` (an empty filter list is falsy and skips the block). -/
def filterBlock (t : Table) (fs : List PyStrOrList) : Except PyError Table :=
  if fs.isEmpty then .ok t else applyFiltersCaught t fs

/-- The filter loop body with no exception handler at all, for comparison
with `applyFiltersCaught`. -/
def applyFiltersUncaught (t : Table) (fs : List PyStrOrList) : Except PyError Table :=
  match applyFiltersLoop t fs with
  | .ok t' => .ok t'
  | .error (_, e) => .error e

/-- The conjunction of the filter slots `slots` applied to row `r` at
columns `idx, idx+1, ...`: a falsy slot is skipped, a truthy slot requires
its alternation to match the cell in its column. -/
def keepFrom (idx : Nat) (slots : List PyStrOrList) (r : List Cell) : Bool :=
  match slots with
  | [] => true
  | slot :: rest =>
    (!slot.truthy || (cellContains slot.joinParts (r.getD idx none)).getD false)
      && keepFrom (idx + 1) rest r

/-- Python slicing `s[a:b]` on a string (out-of-range indices clip). -/
def pySlice (s : String) (a b : Nat) : String :=
  String.mk ((s.data.take b).drop a)

/-- `last_toc_update[6:10] + last_toc_update[3:5] + last_toc_update[0:2]`:
the date reformatting `get_ilostat_dat` applies to the TOC's `last.update`
value before embedding it in the cache file name. -/
def reformat_last_update (s : String) : String :=
  pySlice s 6 10 ++ pySlice s 3 5 ++ pySlice s 0 2

/-- Left-to-right non-overlapping replacement on character lists: `skip`
counts characters of a just-matched occurrence still to be consumed. -/
def replaceAux (pat rep : List Char) : Nat → List Char → List Char
  | _, [] => []
  | Nat.succ k, _ :: rest => replaceAux pat rep k rest
  | 0, c :: rest =>
    if pat.isPrefixOf (c :: rest) && !pat.isEmpty then
      rep ++ replaceAux pat rep (pat.length - 1) rest
    else
      c :: replaceAux pat rep 0 rest

/-- Python `s.replace(pat, rep)`: replace every non-overlapping occurrence,
left to right.  (The one call site, building `tfile` from the cache path,
always passes a non-empty pattern.) -/
def pyReplace (s pat rep : String) : String :=
  String.mk (replaceAux pat.data rep.data 0 s.data)

/-- Split a character list on a separator character; an empty input gives
one empty field, like Python `str.split` with an explicit separator. -/
def splitOnCharAux (sep : Char) : List Char → List (List Char)
  | [] => [[]]
  | c :: rest =>
    match splitOnCharAux sep rest with
    | [] => [[]]
    | w :: ws => if c = sep then [] :: w :: ws else (c :: w) :: ws

/-- Python `s.split(sep)` for a one-character separator. -/
def pySplitOn (s : String) (sep : Char) : List String :=
  (splitOnCharAux sep s.data).map String.mk

/-- `os.path.dirname` for slash-separated paths. -/
def pyDirname (p : String) : String :=
  String.intercalate "/" (pySplitOn p '/').dropLast

/-- Python `s.lower()` (character-wise ASCII lowering). -/
def pyLower (s : String) : String :=
  String.mk (s.data.map Char.toLower)

/-- The bulk-download base URL used throughout the module. -/
def ilostatBase : String := "http://www.ilo.org/ilostat-files/WEB_bulk_download/"

/-- URL of the table of contents for a segment and language. -/
def tocUrl (segment lang : String) : String :=
  ilostatBase ++ segment ++ "/" ++ "table_of_contents_" ++ lang ++ ".csv"

/-- URL of a dataset file for a segment, dataset id and extension. -/
def bulkUrl (segment datasetId ext : String) : String :=
  ilostatBase ++ segment ++ "/" ++ datasetId ++ "." ++ ext

/-- `if not segment.lower().find('model') == -1: segment =
'modelled_estimates'; lang = 'en'` — the segment/language normalization. -/
def normalizeSegment (segment lang : String) : String × String :=
  if strContainsSub "model" (pyLower segment) then ("modelled_estimates", "en")
  else (segment, lang)

/-- The external world: the temporary directory path, the remote reads
(`pandas.read_csv` on the TOC URL, `pandas.read_stata` on a dataset URL,
`pandas.read_csv` on the body downloaded from a dataset URL) and
`pandas.read_csv` on an existing cache file.  Each read either yields a
parsed table or raises. -/
structure Env where
  tmpdir : String
  tocRead : String → String → Except PyError Table
  stataRead : String → Except PyError Table
  urlContentCsv : String → Except PyError Table
  cacheRead : String → Except PyError Table

/-- Insert a path into the set of existing files (writing a file). -/
def fsInsert (files : List String) (f : String) : List String :=
  if files.contains f then files else files ++ [f]

/-- `os.remove`: drop a path from the set of existing files. -/
def fsRemove (files : List String) (f : String) : List String :=
  files.filter (fun g => g ≠ f)

/-- The column positions `[1,2,3,4,10,11,12,13]` concatenated into the
synthetic `titles` column by the TOC search step. -/
def titleIdxs : List Nat := [1, 2, 3, 4, 10, 11, 12, 13]

/-- The `if search:` block of `get_ilostat_toc`: join a list search with
the literal string `" and "`, print it, build the `titles` concatenation of
eight label columns (`IndexError` when the table has fewer than 14 columns,
`TypeError` when `''.join` meets a `NaN` cell) and keep the rows whose
`titles` value contains the pattern; the temporary `titles` column is
dropped again. -/
def searchStep (toc : Table) (search : PyStrOrList) : Except PyError (Table × List String) :=
  if !search.truthy then .ok (toc, [])
  else
    let newsearch := match search with
      | .lst l => String.intercalate " and " l
      | .str s => s
    if toc.cols.length ≤ 13 then .error .indexError
    else if toc.rows.any (fun r => titleIdxs.any (fun i => (r.getD i none).isNone)) then
      .error .typeError
    else
      .ok (⟨toc.cols, toc.rows.filter (fun r =>
            strContainsSub newsearch
              (String.join (titleIdxs.map (fun i => (r.getD i none).getD ""))))⟩,
        [newsearch])

/-- `get_ilostat_toc(segment, lang, search, filters)`: normalize the
segment, read the TOC CSV from the remote URL (a parse failure raises out
of the function: a successful `read_csv` always returns a data frame, so
the `if not type(toc) == DataFrame:` diagnostic branch is unreachable),
then apply the search step and the filter block.  Returns the table and
the console output. -/
def get_ilostat_toc (segment lang : String) (search : PyStrOrList)
    (filters : List PyStrOrList) (env : Env) : Except PyError (Table × List String) := do
  let (seg, lng) := normalizeSegment segment lang
  let toc ← env.tocRead seg lng
  let (toc1, p) ← searchStep toc search
  let toc2 ← filterBlock toc1 filters
  .ok (toc2, p)

/-- Result of a dataset-level call: the table, the filesystem state and the
console output. -/
structure DatOut where
  dat : Table
  files : List String
  prints : List String
deriving DecidableEq, Repr

/-- `get_ilostat_raw(id, segment, cache_file, cache_dir, cache_format,
quiet)`.  For `modelled_estimates` it reads the Stata file straight from
the URL; on an `IOError` it prints the non-existence message (console
output on a raising path is discarded by the model) and then evaluates
`os.remove(tfile)` — but `tfile` is never assigned in this branch, so a
`NameError` is raised.  Otherwise it downloads `{id}.csv.gz` to `tfile`
(the cache path with its extension replaced by `.csv.gz`; the download
writes the response body unconditionally) and parses it; on success the
temporary file is removed again when the cache format is not `csv.gz`; on
an `IOError` (e.g. a bad gzip body) the temporary file is removed, the
message printed unless quieted, and an empty table returned; any other
parse exception propagates.  Returns the table, the filesystem and the
console output. -/
def get_ilostat_raw (datasetId segment cache_file cache_format : String) (quiet : Bool)
    (env : Env) (files : List String) : Except PyError (Table × List String × List String) :=
  if segment = "modelled_estimates" then
    match env.stataRead (bulkUrl segment datasetId "dta") with
    | .ok t =>
      .ok (t, files, if quiet then [] else [bulkUrl segment datasetId cache_format])
    | .error e =>
      if e = .osError then
        -- `except IOError:` prints, then `os.remove(tfile)` with `tfile` unbound
        .error .nameError
      else .error e
  else
    let tfile := pyReplace cache_file ("." ++ cache_format) ".csv.gz"
    let files1 := fsInsert files tfile
    match env.urlContentCsv (bulkUrl segment datasetId "csv.gz") with
    | .ok t =>
      let files2 := if cache_format = "csv.gz" then files1 else fsRemove files1 tfile
      .ok (t, files2, if quiet then [] else [bulkUrl segment datasetId cache_format])
    | .error e =>
      if e = .osError then
        .ok (Table.empty, fsRemove files1 tfile,
          if quiet then []
          else ["Dataset with id = " ++ datasetId ++ " does not exist or is not readable"])
      else .error e

/-- `get_ilostat_dat(id, segment, filters, cache, cache_update, cache_dir,
cache_format, quiet)`: look the id up in the TOC (note the source passes
`filters = [id]` with `id` a bare string, so the filter slot is the string
itself and `'|'.join` splits it into single characters), take the first
distinct `last.update` value of the matched rows, reformat it, build the
cache file path, decide freshness, fetch raw or read the cache, and apply
the filter block. -/
def get_ilostat_dat (datasetId segment : String) (filters : List PyStrOrList)
    (cache cache_update : Bool) (cache_dir : Option String) (cache_format : String)
    (quiet : Bool) (env : Env) (files : List String) : Except PyError DatOut := do
  let (toc, p0) ← get_ilostat_toc segment "en" (.lst []) [.str datasetId] env
  if "last.update" ∈ toc.cols then
    let vals := toc.rows.map (fun r => r.getD (toc.cols.indexOf "last.update") none)
    if vals.isEmpty then
      .ok ⟨Table.empty, files,
        p0 ++ (if quiet then []
               else ["Dataset with id = " ++ datasetId ++ "does not exist or is not readable"])⟩
    else
      match dedupFirst vals with
      | [] => .error .indexError          -- `.unique()[0]` on an empty series
      | none :: _ => .error .typeError    -- slicing a NaN value
      | some lu0 :: _ =>
        let lu := reformat_last_update lu0
        let cdir := match cache_dir with
          | none => env.tmpdir ++ "/ilostat"
          | some s => if s.isEmpty then env.tmpdir ++ "/ilostat" else s
        let cache_file := cdir ++ "/" ++ segment ++ "-" ++ datasetId ++ "-" ++ lu ++ "." ++ cache_format
        let fresh := cache && cache_update && files.contains cache_file
        let cu2 := if fresh then false else cache_update
        let p1 := if fresh && !quiet then ["Table " ++ datasetId ++ " is up to date"] else []
        if !cache || cu2 || !(files.contains cache_file) then
          let (t, files2, p2) ← get_ilostat_raw datasetId segment cache_file cache_format quiet env files
          let t' ← filterBlock t filters
          .ok ⟨t', files2, p0 ++ p1 ++ p2⟩
        else
          let t ← env.cacheRead cache_file
          let p2 := if quiet then []
                    else ["Table " ++ datasetId ++ " read from cache file: " ++ pyDirname cache_file]
          let t' ← filterBlock t filters
          .ok ⟨t', files, p0 ++ p1 ++ p2⟩
  else
    .error .keyError                      -- `['last.update']` on a TOC without that column

/-- The dynamically typed `id` argument of `get_ilostat`: a string, a list
of strings, or a data frame. -/
inductive IdArg
  | str (v : String)
  | lst (vs : List String)
  | df (t : Table)

/-- `dat.append(other, ignore_index=True)`: concatenate rows; columns are
aligned by name, names missing on one side are filled with `NaN`. -/
def pyAppend (t1 t2 : Table) : Table :=
  if t1.cols = t2.cols then ⟨t1.cols, t1.rows ++ t2.rows⟩
  else
    let cols := t1.cols ++ t2.cols.filter (fun c => c ∉ t1.cols)
    let align := fun (t : Table) (r : List Cell) =>
      cols.map (fun c => if c ∈ t.cols then r.getD (t.cols.indexOf c) none else none)
    ⟨cols, t1.rows.map (align t1) ++ t2.rows.map (align t2)⟩

/-- The `for i in range(1, len(id)):` loop of `get_ilostat`: fetch each
further id and append its rows, threading the filesystem state. -/
def get_ilostat_list (segment : String) (filters : List PyStrOrList)
    (cache cache_update : Bool) (cache_dir : Option String) (cache_format : String)
    (quiet : Bool) (env : Env) : List String → DatOut → Except PyError DatOut
  | [], acc => .ok acc
  | v :: rest, acc => do
    let r ← get_ilostat_dat v segment filters cache cache_update cache_dir cache_format quiet env acc.files
    get_ilostat_list segment filters cache cache_update cache_dir cache_format quiet env rest
      ⟨pyAppend acc.dat r.dat, r.files, acc.prints ++ r.prints⟩

/-- `get_ilostat(id, segment, filters, cache, cache_update, cache_dir,
cache_format, quiet)`: for a data-frame `id`, compute the unique values of
its `id` column (`AttributeError` when the column is missing, `IndexError`
when `ref_id[0]` indexes an empty unique list) — the result is never used;
normalize the segment; dispatch on the runtime type of `id` (string: one
fetch; list: sequential fetches appended; data frame: neither branch
assigns `dat`, so `return dat` raises `NameError` on the unbound local). -/
def get_ilostat (idArg : IdArg) (segment : String) (filters : List PyStrOrList)
    (cache cache_update : Bool) (cache_dir : Option String) (cache_format : String)
    (quiet : Bool) (env : Env) (files : List String) : Except PyError DatOut :=
  let seg := if strContainsSub "model" (pyLower segment) then "modelled_estimates" else segment
  match idArg with
  | .df t =>
    if "id" ∈ t.cols then
      let refIds := dedupFirst (t.rows.map (fun r => r.getD (t.cols.indexOf "id") none))
      if refIds.isEmpty then .error .indexError
      else .error .nameError
    else .error .attributeError
  | .str v => get_ilostat_dat v seg filters cache cache_update cache_dir cache_format quiet env files
  | .lst [] => .error .indexError        -- `id[0]` on an empty list
  | .lst (v :: rest) => do
    let first ← get_ilostat_dat v seg filters cache cache_update cache_dir cache_format quiet env files
    get_ilostat_list seg filters cache cache_update cache_dir cache_format quiet env rest first

/-- `pandas.merge(DataFrame(xs), dic_df, how='left', on=[dic])` restricted
to the code and label columns: each element of `xs` is joined against every
dictionary row with the same code; an element with no match yields one row
with a `NaN` label. -/
def leftJoin (xs : List String) (dic_df : List (String × String)) : List (String × Option String) :=
  xs.flatMap (fun c =>
    match dic_df.filter (fun kv => kv.1 = c) with
    | [] => [(c, none)]
    | ms => ms.map (fun kv => (c, some kv.2)))

/-- `dic.lower().find('note_') == -1` negated: the dictionary name contains
`note_` (case-insensitively), selecting the composite-note path. -/
def isNoteDic (dic : String) : Bool :=
  strContainsSub "note_" (pyLower dic)

/-- One iteration of the composite-note loop of `label_ilostat`: split the
composite value on `_`, left-join the elementary codes against the
dictionary, and `' | '.join` the resulting labels (a missing elementary
code yields a `NaN` label and makes the join raise `TypeError`). -/
def compositeLabel (dic_df : List (String × String)) (v : String) : Except PyError String :=
  let lbls := (leftJoin (pySplitOn v '_') dic_df).map (fun p => p.2)
  if lbls.contains none then .error .typeError
  else .ok (String.intercalate " | " (lbls.map (fun o => o.getD "")))

/-- The vector mode of `label_ilostat` (the `not type(x) == DataFrame`
branch), with the dictionary table `dic_df` passed in place of the
`get_ilostat_dic` download.  Simple dictionaries left-join the codes and
return the label column; `note_` dictionaries first deduplicate the
distinct composite values (first occurrence kept), resolve each to its
`' | '`-joined composite label, and left-join the original sequence back
against the resolved pairs. -/
def label_ilostat_vector (x : List String) (dic : String)
    (dic_df : List (String × String)) : Except PyError (List Cell) :=
  if !isNoteDic dic then
    .ok ((leftJoin x dic_df).map (fun p => p.2))
  else do
    let zvals := dedupFirst x
    let lbls ← zvals.mapM (compositeLabel dic_df)
    .ok ((leftJoin x (zvals.zip lbls)).map (fun p => p.2))

/-! ### Concrete instances used to exercise the fetch paths -/

/-- A two-row TOC (full 14-column layout): dataset `CA` last updated
`05.05.2021` and dataset `AB` last updated `01.01.2020`. -/
def tocTwoRows : Table :=
  ⟨["id", "indicator", "indicator.label", "freq", "freq.label", "size", "data.start",
    "data.end", "last.update", "n.records", "collection", "collection.label", "subject",
    "subject.label"],
   [[some "CA", some "x", some "x", some "x", some "x", some "1", some "2000",
     some "2020", some "05.05.2021", some "9", some "x", some "x", some "x", some "x"],
    [some "AB", some "x", some "x", some "x", some "x", some "1", some "2000",
     some "2020", some "01.01.2020", some "9", some "x", some "x", some "x", some "x"]]⟩

/-- A one-column table standing for a freshly downloaded dataset file. -/
def rawTable : Table := ⟨["c"], [[some "raw"]]⟩

/-- A one-column table standing for the content of an existing cache file. -/
def cachedTable : Table := ⟨["c"], [[some "cached"]]⟩

/-- Environment for the cache-freshness scenario: the TOC parses to
`tocTwoRows`, every dataset download parses to `rawTable`, every cache
file parses to `cachedTable`. -/
def envCacheScenario : Env :=
  { tmpdir := "/tmp"
    tocRead := fun _ _ => .ok tocTwoRows
    stataRead := fun _ => .error .osError
    urlContentCsv := fun _ => .ok rawTable
    cacheRead := fun _ => .ok cachedTable }

/-- Environment in which every remote read fails to parse as tabular data
(`pandas.errors.ParserError`, a `ValueError`). -/
def envUnparsable : Env :=
  { tmpdir := "/tmp"
    tocRead := fun _ _ => .error .valueError
    stataRead := fun _ => .error .valueError
    urlContentCsv := fun _ => .error .valueError
    cacheRead := fun _ => .error .valueError }

/-- Environment in which every remote file is missing: reads raise the
`IOError`-family exception (`HTTPError` for `read_stata` on a missing URL,
`gzip.BadGzipFile` for a downloaded error page). -/
def envMissingRemote : Env :=
  { tmpdir := "/tmp"
    tocRead := fun _ _ => .error .osError
    stataRead := fun _ => .error .osError
    urlContentCsv := fun _ => .error .osError
    cacheRead := fun _ => .error .osError }

/-- A table whose `id` column holds `"A"` and `"AB"`, used to exercise the
substring over-match of the filter engine. -/
def tAB : Table :=
  ⟨["id", "last.update"], [[some "A", some "01.01.2020"], [some "AB", some "02.01.2020"]]⟩

/-- A one-column table with ids `"A"`, `"B"`, `"AB"`. -/
def tW9 : Table := ⟨["id"], [[some "A"], [some "B"], [some "AB"]]⟩

/-- `tW9` filtered by `["A"]` on its first column. -/
def tW9f : Table := ⟨["id"], [[some "A"], [some "AB"]]⟩

/-! ### Properties of the filter engine's exception behaviour -/

theorem maskFilter_error_valueError {t : Table} {idx : Nat} {parts : List String} {e : PyError}
    (h : maskFilter t idx parts = .error e) : e = .valueError := by
  unfold maskFilter at h
  split at h <;> simp_all

theorem applyFrom_error_valueError :
    ∀ (slots : List PyStrOrList) (t : Table) (idx : Nat) (st : Table) (e : PyError),
      applyFrom t idx slots = .error (st, e) → e = .valueError := by
  intro slots
  induction slots with
  | nil => intro t idx st e h; simp [applyFrom] at h
  | cons slot rest ih =>
    intro t idx st e h
    simp only [applyFrom] at h
    split at h
    · cases hm : maskFilter t idx slot.joinParts with
      | ok t' =>
        rw [hm] at h
        exact ih t' (idx + 1) st e h
      | error e' =>
        rw [hm] at h
        simp only [Except.error.injEq, Prod.mk.injEq] at h
        rcases h with ⟨-, h2⟩
        rw [← h2]
        exact maskFilter_error_valueError hm
    · exact ih t (idx + 1) st e h

/-- Claim C3 (amended): the filter step's `except OSError: pass` handler is
dead code — the loop body raises only `ValueError` (from a missing value in
a filtered column), which is not an `OSError`, so for every table and
filter list the guarded filter step behaves exactly like the loop with no
handler: any filtering error propagates to the caller, and when no error
occurs the fully filtered table is returned. -/
theorem filter_osError_handler_is_dead (t : Table) (fs : List PyStrOrList) :
    applyFiltersCaught t fs = applyFiltersUncaught t fs := by
  unfold applyFiltersCaught applyFiltersUncaught
  cases h : applyFiltersLoop t fs with
  | ok t' => rfl
  | error p =>
    obtain ⟨st, e⟩ := p
    unfold applyFiltersLoop at h
    have he : e = .valueError := applyFrom_error_valueError _ t 0 st e h
    subst he
    simp

/-- Claim C3 (counterexample): the filter step does raise to the caller — on
a one-column table whose single cell is `NaN` and the filter list `[["A"]]`,
the filter block raises `ValueError` instead of returning a table. -/
theorem filterBlock_raises_on_missing_value :
    filterBlock ⟨["id"], [[none]]⟩ [.lst ["A"]] = .error .valueError := rfl

/-- Claim C6: for every `last.update` string in `DD.MM.YYYY` textual layout
the date embedded in the cache file name is its `YYYYMMDD` reordering —
characters 6–9, then 3–4, then 0–1. -/
theorem reformat_last_update_reorders_ddmmyyyy (d1 d2 m1 m2 y1 y2 y3 y4 : Char) :
    reformat_last_update (String.mk [d1, d2, '.', m1, m2, '.', y1, y2, y3, y4])
      = String.mk [y1, y2, y3, y4, m1, m2, d1, d2] := rfl

/-- Claim C4: `get_ilostat_toc` does not degrade to an empty table when the
remote TOC cannot be parsed as tabular data — `pandas.read_csv` raises, the
`if not type(toc) == DataFrame` diagnostic guard is unreachable, and the
exception propagates out of the function. -/
theorem get_ilostat_toc_raises_on_unparsable_toc :
    get_ilostat_toc "indicator" "xx" (.lst []) [] envUnparsable = .error .valueError := rfl

/-- Claim C5: in the `modelled_estimates` branch a failed `read_stata`
(missing remote file, an `IOError`) does not delete a temporary file and
return an empty table — the handler evaluates `os.remove(tfile)` with
`tfile` unbound in that branch, raising `NameError`, whether quieted or
not. -/
theorem get_ilostat_raw_stata_failure_raises_nameError :
    get_ilostat_raw "UNE_2EAP_SEX_AGE_NB_A" "modelled_estimates"
        "/tmp/ilostat/modelled_estimates-UNE_2EAP_SEX_AGE_NB_A-20200101.csv.gz" "csv.gz" false
        envMissingRemote []
      = .error .nameError
    ∧ get_ilostat_raw "UNE_2EAP_SEX_AGE_NB_A" "modelled_estimates"
        "/tmp/ilostat/modelled_estimates-UNE_2EAP_SEX_AGE_NB_A-20200101.csv.gz" "csv.gz" true
        envMissingRemote []
      = .error .nameError := ⟨rfl, rfl⟩

/-- Claim C1: with `cache = True` and `cache_update = True` and the cache
file named with dataset `AB`'s own TOC `last.update` (`01.01.2020`, i.e.
`20200101`) present on disk, `get_ilostat_dat` nevertheless performs a raw
fetch: the TOC lookup passes the bare string `"AB"` as a filter slot, so
`'|'.join` builds the single-character alternation `A|B`, the unrelated row
`CA` also matches, and `unique()[0]` takes `CA`'s date `05.05.2021` — the
expected cache name becomes `indicator-AB-20210505.csv.gz`, which does not
exist, so the fresh download is parsed (result `rawTable`, temporary file
written) instead of loading the existing fresh cache file (`cachedTable`). -/
theorem get_ilostat_dat_refetches_despite_matching_cache_file :
    reformat_last_update "01.01.2020" = "20200101"
    ∧ get_ilostat_dat "AB" "indicator" [] true true (some "/cache") "csv.gz" true
        envCacheScenario ["/cache/indicator-AB-20200101.csv.gz"]
      = .ok ⟨rawTable,
          ["/cache/indicator-AB-20200101.csv.gz", "/cache/indicator-AB-20210505.csv.gz"], []⟩
    ∧ rawTable ≠ cachedTable := by
  refine ⟨rfl, rfl, by decide⟩

theorem applyFrom_ok_of_allSome :
    ∀ (slots : List PyStrOrList) (cols : List String) (rows : List (List Cell)) (idx : Nat),
      (∀ r ∈ rows, ∀ j < slots.length, (r.getD (idx + j) none).isSome) →
      applyFrom ⟨cols, rows⟩ idx slots = .ok ⟨cols, rows.filter (keepFrom idx slots)⟩ := by
  intro slots
  induction slots with
  | nil =>
    intro cols rows idx _
    simp only [applyFrom, Except.ok.injEq, Table.mk.injEq, true_and]
    exact (List.filter_eq_self.mpr (fun a _ => rfl)).symm
  | cons slot rest ih =>
    intro cols rows idx h
    simp only [applyFrom]
    by_cases hs : slot.truthy
    · have hget : ∀ r ∈ rows, ∃ s, r.getD idx none = some s := by
        intro r hr
        have h0 := h r hr 0 (by simp only [List.length_cons]; omega)
        rw [Nat.add_zero] at h0
        exact Option.isSome_iff_exists.mp h0
      have hnone : (rows.any (fun r => (cellContains slot.joinParts (r.getD idx none)).isNone)) = false := by
        rw [List.any_eq_false]
        intro r hr
        obtain ⟨s, hsome⟩ := hget r hr
        rw [hsome]
        simp [cellContains]
      have hmask : maskFilter ⟨cols, rows⟩ idx slot.joinParts
          = .ok ⟨cols, rows.filter (fun r => (cellContains slot.joinParts (r.getD idx none)).getD false)⟩ := by
        unfold maskFilter
        simp only [hnone]
        rfl
      rw [if_pos hs, hmask]
      dsimp only
      have hsub : ∀ r ∈ rows.filter (fun r => (cellContains slot.joinParts (r.getD idx none)).getD false),
          ∀ j < rest.length, (r.getD (idx + 1 + j) none).isSome := by
        intro r hr j hj
        have hmem := (List.mem_filter.mp hr).1
        have := h r hmem (j + 1) (by simp only [List.length_cons]; omega)
        rwa [show idx + (j + 1) = idx + 1 + j by omega] at this
      rw [ih cols _ (idx + 1) hsub, List.filter_filter]
      simp only [Except.ok.injEq, Table.mk.injEq, true_and]
      apply List.filter_congr
      intro r _
      simp only [keepFrom, hs, Bool.not_true, Bool.false_or]
      exact Bool.and_comm _ _
    · rw [if_neg hs]
      have hsub : ∀ r ∈ rows, ∀ j < rest.length, (r.getD (idx + 1 + j) none).isSome := by
        intro r hr j hj
        have := h r hr (j + 1) (by simp only [List.length_cons]; omega)
        rwa [show idx + (j + 1) = idx + 1 + j by omega] at this
      rw [ih cols rows (idx + 1) hsub]
      simp only [Except.ok.injEq, Table.mk.injEq, true_and]
      apply List.filter_congr
      intro r _
      simp only [keepFrom]
      rw [Bool.not_eq_true] at hs
      simp [hs]

theorem keepFrom_eq_true_iff :
    ∀ (slots : List PyStrOrList) (idx : Nat) (r : List Cell),
      (keepFrom idx slots r = true
        ↔ ∀ j < slots.length, (slots.getD j (.lst [])).truthy = true →
            (cellContains (slots.getD j (.lst [])).joinParts (r.getD (idx + j) none)).getD false = true) := by
  intro slots
  induction slots with
  | nil => intro idx r; simp [keepFrom]
  | cons slot rest ih =>
    intro idx r
    simp only [keepFrom, Bool.and_eq_true, Bool.or_eq_true, Bool.not_eq_true']
    constructor
    · rintro ⟨h1, h2⟩ j hj ht
      cases j with
      | zero =>
        simp only [List.getD_cons_zero] at ht ⊢
        rw [Nat.add_zero]
        rcases h1 with h1 | h1
        · rw [ht] at h1; cases h1
        · exact h1
      | succ n =>
        simp only [List.getD_cons_succ] at ht ⊢
        rw [show idx + (n + 1) = idx + 1 + n by omega]
        exact (ih (idx + 1) r).mp h2 n (by simp only [List.length_cons] at hj; omega) ht
    · intro hall
      constructor
      · by_cases ht : slot.truthy
        · right
          have := hall 0 (by simp only [List.length_cons]; omega)
          simp only [List.getD_cons_zero, Nat.add_zero] at this
          exact this ht
        · left
          simp only [Bool.not_eq_true] at ht
          exact ht
      · refine (ih (idx + 1) r).mpr ?_
        intro n hn ht
        have := hall (n + 1) (by simp only [List.length_cons]; omega)
        simp only [List.getD_cons_succ] at this
        rw [show idx + 1 + n = idx + (n + 1) by omega]
        exact this ht

theorem slots_getD_take_map (fs : List (List String)) (n j : Nat) (hn : j < n) :
    ((fs.map PyStrOrList.lst).take n).getD j (.lst []) = .lst (fs.getD j []) := by
  rw [List.getD_eq_getElem?_getD, List.getElem?_take_of_lt hn, List.getElem?_map,
    List.getD_eq_getElem?_getD]
  cases h : fs[j]? <;> simp [h]

/-- Claim C2: for every table and positional filter list, exactly the first
`min(number of columns, filter-list length)` slots are applied, and a row
of the result is kept iff for every applied slot with a non-empty entry the
value in that column matches the `'|'`-joined alternation of the slot's
strings — substring containment, not equality (so ids `"A"` and `"AB"` are
both kept by the filter `["A"]`, see the witness). -/
theorem filterBlock_keeps_iff_matches_applied_slots (t : Table) (fs : List (List String))
    (h : ∀ r ∈ t.rows, ∀ i < min t.cols.length fs.length, (r.getD i none).isSome) :
    ∃ tf, filterBlock t (fs.map PyStrOrList.lst) = .ok tf
      ∧ tf.cols = t.cols
      ∧ ∀ r, r ∈ tf.rows ↔ r ∈ t.rows ∧
          ∀ i < min t.cols.length fs.length, fs.getD i [] ≠ [] →
            (fs.getD i []).any (fun p => strContainsSub p ((r.getD i none).getD "")) = true := by
  by_cases hfs : fs = []
  · subst hfs
    refine ⟨t, rfl, rfl, fun r => ?_⟩
    simp
  · have hne : (fs.map PyStrOrList.lst).isEmpty = false := by
      simp [List.isEmpty_iff, hfs]
    set n := min t.cols.length fs.length with hn
    set slots := (fs.map PyStrOrList.lst).take n with hslots
    have hslen : slots.length = n := by
      rw [hslots, List.length_take, List.length_map]
      omega
    have happ : applyFrom ⟨t.cols, t.rows⟩ 0 slots = .ok ⟨t.cols, t.rows.filter (keepFrom 0 slots)⟩ := by
      apply applyFrom_ok_of_allSome
      intro r hr j hj
      rw [hslen] at hj
      rw [Nat.zero_add]
      exact h r hr j hj
    have hloop : applyFiltersLoop t (fs.map PyStrOrList.lst) = .ok ⟨t.cols, t.rows.filter (keepFrom 0 slots)⟩ := by
      unfold applyFiltersLoop
      rw [List.length_map, ← hn, ← hslots]
      exact (show t = ⟨t.cols, t.rows⟩ from rfl) ▸ happ
    refine ⟨⟨t.cols, t.rows.filter (keepFrom 0 slots)⟩, ?_, rfl, ?_⟩
    · unfold filterBlock applyFiltersCaught
      rw [if_neg (by simp [hne]), hloop]
    · intro r
      rw [List.mem_filter]
      constructor
      · rintro ⟨hr, hk⟩
        refine ⟨hr, ?_⟩
        intro i hi hne2
        have := (keepFrom_eq_true_iff slots 0 r).mp hk i (hslen ▸ hi)
        rw [slots_getD_take_map fs n i hi] at this
        have ht : (PyStrOrList.lst (fs.getD i [])).truthy = true := by
          cases hl : fs.getD i [] with
          | nil => exact absurd hl hne2
          | cons a l => simp [PyStrOrList.truthy, hl]
        have hmask := this ht
        obtain ⟨s, hs⟩ := Option.isSome_iff_exists.mp (h r hr i hi)
        rw [Nat.zero_add, hs] at hmask
        rw [hs]
        simpa [cellContains, PyStrOrList.joinParts] using hmask
      · rintro ⟨hr, hall⟩
        refine ⟨hr, ?_⟩
        apply (keepFrom_eq_true_iff slots 0 r).mpr
        intro j hj ht
        rw [hslen] at hj
        rw [slots_getD_take_map fs n j hj] at ht ⊢
        have hne2 : fs.getD j [] ≠ [] := by
          simp only [PyStrOrList.truthy, Bool.not_eq_true'] at ht
          intro hcon
          rw [hcon] at ht
          simp at ht
        have hmatch := hall j hj hne2
        obtain ⟨s, hs⟩ := Option.isSome_iff_exists.mp (h r hr j hj)
        rw [hs] at hmatch
        rw [Nat.zero_add, hs]
        simpa [cellContains, PyStrOrList.joinParts] using hmatch

theorem applyFrom_idem :
    ∀ (slots : List PyStrOrList) (t t' : Table) (idx : Nat),
      applyFrom t idx slots = .ok t' →
      applyFrom t' idx slots = .ok t' ∧ t'.cols = t.cols ∧ (∀ r ∈ t'.rows, r ∈ t.rows) := by
  intro slots
  induction slots with
  | nil =>
    intro t t' idx h
    simp only [applyFrom, Except.ok.injEq] at h
    subst h
    exact ⟨rfl, rfl, fun r hr => hr⟩
  | cons slot rest ih =>
    intro t t' idx h
    simp only [applyFrom] at h
    by_cases hs : slot.truthy
    · rw [if_pos hs] at h
      cases hm : maskFilter t idx slot.joinParts with
      | error e => rw [hm] at h; cases h
      | ok t1 =>
        rw [hm] at h
        obtain ⟨hidem, hcols, hmem⟩ := ih t1 t' (idx + 1) h
        unfold maskFilter at hm
        split at hm
        · cases hm
        · simp only [Except.ok.injEq] at hm
          subst hm
          have hkeep : ∀ r ∈ t'.rows,
              (cellContains slot.joinParts (r.getD idx none)).getD false = true := by
            intro r hr
            exact (List.mem_filter.mp (hmem r hr)).2
          have hmask' : maskFilter t' idx slot.joinParts = .ok t' := by
            unfold maskFilter
            have hcond : (t'.rows.any (fun r => (cellContains slot.joinParts (r.getD idx none)).isNone)) = false := by
              rw [List.any_eq_false]
              intro r hr
              have := hkeep r hr
              cases ho : cellContains slot.joinParts (r.getD idx none) with
              | none => rw [ho] at this; cases this
              | some b => simp [ho]
            rw [if_neg (by rw [hcond]; exact Bool.false_ne_true)]
            have hself : t'.rows.filter (fun r => (cellContains slot.joinParts (r.getD idx none)).getD false) = t'.rows :=
              List.filter_eq_self.mpr hkeep
            rw [hself]
          constructor
          · show applyFrom t' idx (slot :: rest) = .ok t'
            simp only [applyFrom, if_pos hs, hmask']
            exact hidem
          · exact ⟨hcols, fun r hr => (List.mem_filter.mp (hmem r hr)).1⟩
    · rw [if_neg hs] at h
      obtain ⟨hidem, hcols, hmem⟩ := ih t t' (idx + 1) h
      simp only [applyFrom, if_neg hs]
      exact ⟨hidem, hcols, hmem⟩

/-- Claim C9: the filter step is idempotent — whenever applying the filter
block to a table succeeds, applying the same filter list to the result
succeeds again and returns that result unchanged (every surviving row
already matches every applied truthy slot, and the column count, hence the
number of applied slots, is preserved). -/
theorem filterBlock_idempotent (t t' : Table) (fs : List PyStrOrList)
    (h : filterBlock t fs = .ok t') : filterBlock t' fs = .ok t' := by
  unfold filterBlock at h ⊢
  by_cases he : fs.isEmpty
  · rw [if_pos he]
  · rw [if_neg he] at h ⊢
    unfold applyFiltersCaught applyFiltersLoop at h ⊢
    cases hl : applyFrom t 0 (fs.take (min t.cols.length fs.length)) with
    | ok t0 =>
      rw [hl] at h
      simp only [Except.ok.injEq] at h
      subst h
      obtain ⟨hidem, hcols, -⟩ := applyFrom_idem _ t t0 0 hl
      rw [hcols, hidem]
    | error p =>
      obtain ⟨st, e⟩ := p
      rw [hl] at h
      have he2 := applyFrom_error_valueError _ t 0 st e hl
      subst he2
      simp at h

/-- Witness for C2: on the table with ids `"A"` and `"AB"` and the filter
list `[["A"]]` the hypothesis holds, both rows are kept (substring
over-match), and the theorem's characterization is instantiated. -/
theorem filterBlock_keeps_iff_matches_applied_slots_witness :
    (∀ r ∈ tAB.rows, ∀ i < min tAB.cols.length ([["A"]] : List (List String)).length,
        (r.getD i none).isSome)
    ∧ filterBlock tAB ([["A"]].map PyStrOrList.lst) = .ok tAB
    ∧ (∃ tf, filterBlock tAB ([["A"]].map PyStrOrList.lst) = .ok tf
        ∧ tf.cols = tAB.cols
        ∧ ∀ r, r ∈ tf.rows ↔ r ∈ tAB.rows ∧
            ∀ i < min tAB.cols.length ([["A"]] : List (List String)).length,
              ([["A"]] : List (List String)).getD i [] ≠ [] →
                (([["A"]] : List (List String)).getD i []).any
                  (fun p => strContainsSub p ((r.getD i none).getD "")) = true) :=
  ⟨by decide, rfl, filterBlock_keeps_iff_matches_applied_slots tAB [["A"]] (by decide)⟩

/-- Witness for C9: filtering the three-row table by `["A"]` gives the
two-row table, and filtering that result again leaves it unchanged. -/
theorem filterBlock_idempotent_witness :
    filterBlock tW9 [PyStrOrList.lst ["A"]] = .ok tW9f
    ∧ filterBlock tW9f [PyStrOrList.lst ["A"]] = .ok tW9f :=
  ⟨rfl, filterBlock_idempotent tW9 tW9f [PyStrOrList.lst ["A"]] rfl⟩

theorem filter_eq_find_toList (dic_df : List (String × String)) (c : String)
    (h : (dic_df.map Prod.fst).Nodup) :
    dic_df.filter (fun kv => kv.1 = c) = (dic_df.find? (fun kv => kv.1 = c)).toList := by
  induction dic_df with
  | nil => rfl
  | cons kv rest ih =>
    rw [List.map_cons, List.nodup_cons] at h
    by_cases hc : kv.1 = c
    · rw [List.filter_cons_of_pos (by simp [hc]), List.find?_cons_of_pos _ (by simp [hc])]
      have hrest : rest.filter (fun kv => kv.1 = c) = [] := by
        rw [List.filter_eq_nil_iff]
        intro kv' hkv'
        simp only [decide_eq_true_eq]
        intro hc'
        apply h.1
        have hm : kv'.1 ∈ rest.map Prod.fst := List.mem_map_of_mem Prod.fst hkv'
        rwa [hc', ← hc] at hm
      rw [hrest]
      rfl
    · rw [List.filter_cons_of_neg (by simp [hc]), List.find?_cons_of_neg _ (by simp [hc])]
      exact ih h.2

theorem leftJoin_eq_map_lookup (xs : List String) (dic_df : List (String × String))
    (h : (dic_df.map Prod.fst).Nodup) :
    leftJoin xs dic_df
      = xs.map (fun c => (c, (dic_df.find? (fun kv => kv.1 = c)).map Prod.snd)) := by
  unfold leftJoin
  induction xs with
  | nil => rfl
  | cons c xs ih =>
    rw [List.flatMap_cons, List.map_cons, ih, filter_eq_find_toList dic_df c h]
    cases hf : dic_df.find? (fun kv => kv.1 = c) with
    | none => rfl
    | some kv => rfl

theorem find?_key_of_mem (dic_df : List (String × String))
    (h : (dic_df.map Prod.fst).Nodup) (c : String) (lab : String)
    (hmem : (c, lab) ∈ dic_df) :
    dic_df.find? (fun kv => kv.1 = c) = some (c, lab) := by
  induction dic_df with
  | nil => cases hmem
  | cons kv rest ih =>
    rw [List.map_cons, List.nodup_cons] at h
    rcases List.mem_cons.mp hmem with heq | hrest
    · rw [← heq]
      exact List.find?_cons_of_pos _ (by simp)
    · have hne : ¬kv.1 = c := by
        intro hc
        exact h.1 (hc ▸ (by simpa using List.mem_map_of_mem Prod.fst hrest))
      rw [List.find?_cons_of_neg _ (by simp [hne])]
      exact ih h.2 hrest

/-- Claim C7: in vector mode with a dictionary name not containing
`note_`, `label_ilostat` left-joins each code against the dictionary and
returns the parallel sequence of labels: a code present in the (duplicate
free) dictionary yields its label text, a code absent from it yields a
missing label, and no exception is raised. -/
theorem label_ilostat_vector_simple_left_join (x : List String) (dic : String)
    (dic_df : List (String × String)) (hdic : isNoteDic dic = false)
    (hkeys : (dic_df.map Prod.fst).Nodup) :
    label_ilostat_vector x dic dic_df
      = .ok (x.map (fun c => (dic_df.find? (fun kv => kv.1 = c)).map Prod.snd))
    ∧ (∀ c lab, (c, lab) ∈ dic_df → (dic_df.find? (fun kv => kv.1 = c)).map Prod.snd = some lab)
    ∧ (∀ c, c ∉ dic_df.map Prod.fst → (dic_df.find? (fun kv => kv.1 = c)).map Prod.snd = none) := by
  refine ⟨?_, ?_, ?_⟩
  · unfold label_ilostat_vector
    rw [hdic]
    simp only [Bool.not_false, if_true]
    rw [leftJoin_eq_map_lookup x dic_df hkeys, List.map_map]
    rfl
  · intro c lab hmem
    rw [find?_key_of_mem dic_df hkeys c lab hmem]
    rfl
  · intro c hc
    rw [List.find?_eq_none.mpr ?_]
    · rfl
    · intro kv hkv
      simp only [decide_eq_true_eq]
      intro heq
      exact hc (heq ▸ List.mem_map_of_mem Prod.fst hkv)

/-- Witness for C7: labelling `["A", "Z"]` with the dictionary
`A ↦ Alpha, B ↦ Beta` yields `[some "Alpha", none]` — the present code gets
its label text, the absent one a missing label, without raising. -/
theorem label_ilostat_vector_simple_left_join_witness :
    isNoteDic "sex" = false
    ∧ ([("A", "Alpha"), ("B", "Beta")].map Prod.fst).Nodup
    ∧ label_ilostat_vector ["A", "Z"] "sex" [("A", "Alpha"), ("B", "Beta")]
        = .ok [some "Alpha", none]
    ∧ (label_ilostat_vector ["A", "Z"] "sex" [("A", "Alpha"), ("B", "Beta")]
        = .ok (["A", "Z"].map (fun c =>
            ([("A", "Alpha"), ("B", "Beta")].find? (fun kv => kv.1 = c)).map Prod.snd))
      ∧ (∀ c lab, (c, lab) ∈ [("A", "Alpha"), ("B", "Beta")] →
          ([("A", "Alpha"), ("B", "Beta")].find? (fun kv => kv.1 = c)).map Prod.snd = some lab)
      ∧ (∀ c, c ∉ [("A", "Alpha"), ("B", "Beta")].map Prod.fst →
          ([("A", "Alpha"), ("B", "Beta")].find? (fun kv => kv.1 = c)).map Prod.snd = none)) :=
  ⟨by decide, by decide, rfl,
    label_ilostat_vector_simple_left_join ["A", "Z"] "sex" [("A", "Alpha"), ("B", "Beta")]
      (by decide) (by decide)⟩

theorem mem_dedupFirstAux {α} [DecidableEq α] :
    ∀ (l seen : List α) (a : α), a ∈ dedupFirstAux seen l ↔ a ∈ l ∧ a ∉ seen := by
  intro l
  induction l with
  | nil => intro seen a; simp [dedupFirstAux]
  | cons b t ih =>
    intro seen a
    by_cases hb : b ∈ seen
    · rw [dedupFirstAux, if_pos hb, ih]
      constructor
      · rintro ⟨ha, hns⟩; exact ⟨List.mem_cons_of_mem b ha, hns⟩
      · rintro ⟨ha, hns⟩
        rcases List.mem_cons.mp ha with rfl | ha
        · exact absurd hb hns
        · exact ⟨ha, hns⟩
    · rw [dedupFirstAux, if_neg hb]
      constructor
      · intro hmem
        rcases List.mem_cons.mp hmem with rfl | hmem
        · exact ⟨List.mem_cons_self _ _, hb⟩
        · obtain ⟨ha, hns⟩ := (ih (b :: seen) a).mp hmem
          exact ⟨List.mem_cons_of_mem b ha,
            fun hc => hns (List.mem_cons_of_mem b hc)⟩
      · rintro ⟨ha, hns⟩
        by_cases hab : a = b
        · exact hab ▸ List.mem_cons_self _ _
        · rcases List.mem_cons.mp ha with rfl | ha
          · exact absurd rfl hab
          · exact List.mem_cons_of_mem b ((ih (b :: seen) a).mpr
              ⟨ha, fun hc => (List.mem_cons.mp hc).elim hab hns⟩)

theorem mem_dedupFirst {α} [DecidableEq α] (l : List α) (a : α) :
    a ∈ dedupFirst l ↔ a ∈ l := by
  rw [dedupFirst, mem_dedupFirstAux]
  simp

theorem nodup_dedupFirstAux {α} [DecidableEq α] :
    ∀ (l seen : List α), (dedupFirstAux seen l).Nodup := by
  intro l
  induction l with
  | nil => intro seen; exact List.nodup_nil
  | cons b t ih =>
    intro seen
    by_cases hb : b ∈ seen
    · rw [dedupFirstAux, if_pos hb]; exact ih seen
    · rw [dedupFirstAux, if_neg hb]
      refine List.nodup_cons.mpr ⟨?_, ih (b :: seen)⟩
      intro hmem
      exact ((mem_dedupFirstAux t (b :: seen) b).mp hmem).2 (List.mem_cons_self _ _)

theorem nodup_dedupFirst {α} [DecidableEq α] (l : List α) : (dedupFirst l).Nodup :=
  nodup_dedupFirstAux l []

theorem mapM_ok_of_forall {α β : Type} (l : List α) (f : α → Except PyError β) (g : α → β)
    (h : ∀ a ∈ l, f a = .ok (g a)) : l.mapM f = .ok (l.map g) := by
  induction l with
  | nil => rfl
  | cons a t ih =>
    rw [List.mapM_cons, h a (List.mem_cons_self _ _),
      ih (fun b hb => h b (List.mem_cons_of_mem a hb))]
    rfl

theorem mem_zip_map_self {α β : Type} (l : List α) (g : α → β) (c : α) (h : c ∈ l) :
    (c, g c) ∈ l.zip (l.map g) := by
  induction l with
  | nil => cases h
  | cons a t ih =>
    rw [List.map_cons, List.zip_cons_cons]
    rcases List.mem_cons.mp h with rfl | h
    · exact List.mem_cons_self _ _
    · exact List.mem_cons_of_mem _ (ih h)

theorem compositeLabel_ok (dic_df : List (String × String))
    (hkeys : (dic_df.map Prod.fst).Nodup) (v : String)
    (hall : ∀ p ∈ pySplitOn v '_', p ∈ dic_df.map Prod.fst) :
    compositeLabel dic_df v
      = .ok (String.intercalate " | " ((pySplitOn v '_').map
          (fun p => ((dic_df.find? (fun kv => kv.1 = p)).map Prod.snd).getD ""))) := by
  unfold compositeLabel
  rw [leftJoin_eq_map_lookup _ _ hkeys, List.map_map]
  have hsome : ∀ p ∈ pySplitOn v '_',
      ∃ lab, (dic_df.find? (fun kv => kv.1 = p)).map Prod.snd = some lab := by
    intro p hp
    obtain ⟨kv, hkv, hfst⟩ := List.mem_map.mp (hall p hp)
    obtain ⟨k, lab⟩ := kv
    dsimp at hfst
    subst hfst
    rw [find?_key_of_mem dic_df hkeys _ lab hkv]
    exact ⟨lab, rfl⟩
  have hcontains : ((pySplitOn v '_').map
      ((fun p => p.2) ∘ fun c => (c, (dic_df.find? (fun kv => kv.1 = c)).map Prod.snd))).contains
        none = false := by
    rw [List.contains_eq_any_beq, List.any_eq_false]
    intro o ho
    obtain ⟨p, hp, rfl⟩ := List.mem_map.mp ho
    obtain ⟨lab, hlab⟩ := hsome p hp
    simp [Function.comp, hlab]
  rw [if_neg (by rw [hcontains]; simp), List.map_map]
  rfl

/-- Claim C8: in vector mode with a `note_` dictionary name, every
composite value whose underscore-separated elementary codes are all present
in the (duplicate free) dictionary resolves to the elementary labels joined
with `" | "` in the order of the elementary codes, and this composite label
is mapped back onto every occurrence of the same composite value. -/
theorem label_ilostat_vector_note_composite (x : List String) (dic : String)
    (dic_df : List (String × String)) (hdic : isNoteDic dic = true)
    (hkeys : (dic_df.map Prod.fst).Nodup)
    (hall : ∀ v ∈ x, ∀ p ∈ pySplitOn v '_', p ∈ dic_df.map Prod.fst) :
    label_ilostat_vector x dic dic_df
      = .ok (x.map (fun v => some (String.intercalate " | "
          ((pySplitOn v '_').map (fun p =>
            ((dic_df.find? (fun kv => kv.1 = p)).map Prod.snd).getD ""))))) := by
  unfold label_ilostat_vector
  rw [hdic]
  simp only [Bool.not_true, Bool.false_eq_true, if_false]
  have hmapM : (dedupFirst x).mapM (compositeLabel dic_df)
      = .ok ((dedupFirst x).map (fun v => String.intercalate " | "
          ((pySplitOn v '_').map (fun p =>
            ((dic_df.find? (fun kv => kv.1 = p)).map Prod.snd).getD "")))) := by
    apply mapM_ok_of_forall
    intro v hv
    exact compositeLabel_ok dic_df hkeys v (hall v ((mem_dedupFirst x v).mp hv))
  rw [hmapM]
  show Except.ok ((leftJoin x ((dedupFirst x).zip ((dedupFirst x).map _))).map (fun p => p.2)) = _
  have hzkeys : ((((dedupFirst x)).zip ((dedupFirst x).map (fun v => String.intercalate " | "
      ((pySplitOn v '_').map (fun p =>
        ((dic_df.find? (fun kv => kv.1 = p)).map Prod.snd).getD ""))))).map Prod.fst).Nodup := by
    rw [List.map_fst_zip _ _ (by simp)]
    exact nodup_dedupFirst x
  rw [leftJoin_eq_map_lookup _ _ hzkeys, List.map_map]
  congr 1
  apply List.map_congr_left
  intro c hc
  show ((((dedupFirst x)).zip ((dedupFirst x).map _)).find? (fun kv => kv.1 = c)).map Prod.snd
    = some _
  rw [find?_key_of_mem _ hzkeys c _
    (mem_zip_map_self (dedupFirst x) _ c ((mem_dedupFirst x c).mpr hc))]
  rfl

/-- Witness for C8: `"A_B"` with labels `Alpha`/`Beta` resolves to
`"Alpha | Beta"`, and both occurrences of `"A_B"` receive it. -/
theorem label_ilostat_vector_note_composite_witness :
    isNoteDic "note_classif" = true
    ∧ ([("A", "Alpha"), ("B", "Beta")].map Prod.fst).Nodup
    ∧ (∀ v ∈ ["A_B", "A_B"], ∀ p ∈ pySplitOn v '_',
        p ∈ [("A", "Alpha"), ("B", "Beta")].map Prod.fst)
    ∧ label_ilostat_vector ["A_B", "A_B"] "note_classif" [("A", "Alpha"), ("B", "Beta")]
        = .ok [some "Alpha | Beta", some "Alpha | Beta"]
    ∧ label_ilostat_vector ["A_B", "A_B"] "note_classif" [("A", "Alpha"), ("B", "Beta")]
        = .ok (["A_B", "A_B"].map (fun v => some (String.intercalate " | "
            ((pySplitOn v '_').map (fun p =>
              (([("A", "Alpha"), ("B", "Beta")].find? (fun kv => kv.1 = p)).map
                Prod.snd).getD ""))))) :=
  ⟨by decide, by decide, by decide, rfl,
    label_ilostat_vector_note_composite ["A_B", "A_B"] "note_classif"
      [("A", "Alpha"), ("B", "Beta")] (by decide) (by decide) (by decide)⟩

/-- Claim C10: calling `get_ilostat` with a data-frame `id` always raises
instead of returning a table: the unique-id normalization is computed but
feeds nothing, neither runtime-type branch assigns `dat`, and `return dat`
raises `NameError` on the unbound local (when the normalization itself
raises first — missing `id` column gives `AttributeError`, an empty frame
makes `ref_id[0]` raise `IndexError` — the call still fails). -/
theorem get_ilostat_dataframe_id_always_raises (t : Table) (segment : String)
    (filters : List PyStrOrList) (cache cache_update : Bool) (cache_dir : Option String)
    (cache_format : String) (quiet : Bool) (env : Env) (files : List String) :
    get_ilostat (.df t) segment filters cache cache_update cache_dir cache_format quiet env files
      = .error (if "id" ∉ t.cols then .attributeError
                else if t.rows.isEmpty then .indexError else .nameError) := by
  by_cases hid : "id" ∈ t.cols
  · cases hr : t.rows with
    | nil => simp [get_ilostat, hid, hr, dedupFirst, dedupFirstAux]
    | cons r rs => simp [get_ilostat, hid, hr, dedupFirst, dedupFirstAux]
  · simp [get_ilostat, hid]
